import Mathlib

/-!
Verification of `mrutil/streaming.py` (plumbee/mapreduce-utils).

The module is embedded shallowly: Python strings become `List Char`,
lazy generators become functions returning `List`, and the one fallible
generator (`map_json_record_reader`, which can raise `RuntimeError`)
returns `Except`.  `json.loads` is an external library call and is kept
as a function parameter `jloads`; `json.dumps` with compact separators
is embedded concretely, since `emit`'s output format depends on it.
-/

namespace Mrutil

/-- Python `str` values are modelled as lists of characters. -/
abbrev Str := List Char

/-- Source constant `KV_SEPARATOR` (the tab, a one-character string,
modelled as the character). -/
def KV_SEPARATOR : Char := '\t'

/-- Source constant `INPUT_FORMAT_SEQUENCE_FILE = "SEQUENCE_FILE"`. -/
def INPUT_FORMAT_SEQUENCE_FILE : Str := "SEQUENCE_FILE".toList

/-- Source constant `INPUT_FORMAT_TEXT_FILE = "TEXT_FILE"`. -/
def INPUT_FORMAT_TEXT_FILE : Str := "TEXT_FILE".toList

/-- The characters Python 2 `str.rstrip()` (no argument) removes:
space, tab, newline, carriage return, vertical tab, form feed. -/
def pyIsSpace (c : Char) : Bool :=
  c == ' ' || c == '\t' || c == '\n' || c == '\r' ||
  c == Char.ofNat 11 || c == Char.ofNat 12

/-- Python `s.rstrip()`: remove all trailing whitespace characters. -/
def pyRstrip (s : Str) : Str :=
  (s.reverse.dropWhile pyIsSpace).reverse

/-- Python `s.partition(sep)` for a one-character separator, keeping the
two interesting components of the triple `(before, sep, after)`: the text
before the first occurrence of `sep` and the text after it.  When `sep`
does not occur, Python returns `(s, to, to)` with empty tail, which this
merged form also produces: `(s, [])`. -/
def pyPartition (sep : Char) : Str → Str × Str
  | [] => ([], [])
  | c :: rest =>
    if c = sep then ([], rest)
    else ((c :: (pyPartition sep rest).1), (pyPartition sep rest).2)

/-- Python `s.split(sep)` for a one-character separator: splits at every
occurrence; the empty string yields `[to]` (one empty field), matching
Python. -/
def pySplit (sep : Char) : Str → List Str
  | [] => [[]]
  | c :: rest =>
    if c = sep then [] :: pySplit sep rest
    else
      match pySplit sep rest with
      | [] => [[c]]
      | f :: fs => (c :: f) :: fs

/-- Embeds `itertools.groupby(it, key)`: groups maximal runs of consecutive
elements whose keys compare equal, pairing each run with its key. -/
def pyGroupBy {α β : Type} [DecidableEq β] (key : α → β) : List α → List (β × List α)
  | [] => []
  | x :: xs =>
    match pyGroupBy key xs with
    | [] => [(key x, [x])]
    | (k, g) :: rest =>
      if key x = k then (k, x :: g) :: rest
      else (key x, [x]) :: (k, g) :: rest

/-- A row produced by `reduce_record_grouper`: a list of fields when a
field delimiter is configured, the raw payload string otherwise
(Python returns a `list` or a `str` depending on the `delimiter`
argument's truthiness). -/
inductive Row where
  | fields (fs : List Str)
  | raw (s : Str)
deriving DecidableEq, Repr

/-- Embeds `reduce_record_grouper(stream, key_func, delimiter)`.  The inner
`reader()` strips each line and partitions it on `KV_SEPARATOR`; the
results are grouped with `itertools.groupby` under `key_func`, and each
group's payloads are split on the field delimiter when one is configured
(`if delimiter:`, modelled by `Option Char`: `none` is a falsy
delimiter). -/
def reduce_record_grouper {β : Type} [DecidableEq β]
    (lines : List Str) (key_func : Str × Str → β) (delimiter : Option Char) :
    List (β × List Row) :=
  let reader := lines.map (fun line => pyPartition KV_SEPARATOR (pyRstrip line))
  (pyGroupBy key_func reader).map (fun g =>
    match delimiter with
    | some d => (g.1, g.2.map (fun kv => Row.fields (pySplit d kv.2)))
    | none => (g.1, g.2.map (fun kv => Row.raw kv.2)))

/-- The row `reduce_record_grouper` builds from one line's payload
(split into fields when a delimiter is configured, raw otherwise). -/
def mkRow (delimiter : Option Char) (payload : Str) : Row :=
  match delimiter with
  | some d => Row.fields (pySplit d payload)
  | none => Row.raw payload

/-- The session tuple the sessionizer yields:
`(int(key_func(data[0])), int(key_func(data[-1])), data)`.  The `getD 0`
defaults are never reached: every yield site passes a non-empty `data`
(Python would raise `IndexError` on an empty one). -/
def mkSession {α : Type} (key_func : α → Int) (data : List α) : Int × Int × List α :=
  ((data.head?.map key_func).getD 0, (data.getLast?.map key_func).getD 0, data)

/-- The sessionizer's guard,
`prev_timestamp and curr_timestamp - prev_timestamp > inactivity_timeout`:
`prev_timestamp` is tested for Python truthiness — `None` and `0` are
both falsy — so the split fires only when the previous timestamp is
present AND non-zero AND the gap exceeds the timeout. -/
def sessionSplit (inactivity_timeout : Int) (prev_timestamp : Option Int)
    (curr_timestamp : Int) : Bool :=
  match prev_timestamp with
  | none => false
  | some p => decide (p ≠ 0) && decide (curr_timestamp - p > inactivity_timeout)

/-- The loop of `time_based_sessionizer`, with the mutable state
`data` (accumulated events) and `prev_timestamp` made explicit.
`prev_timestamp` starts as `None` (`Option.none`). -/
def sessionize_loop {α : Type} (key_func : α → Int) (inactivity_timeout : Int) :
    List α → List α → Option Int → List (Int × Int × List α)
  | [], data, _ =>
    if data.isEmpty then [] else [mkSession key_func data]
  | row :: rest, data, prev_timestamp =>
    if sessionSplit inactivity_timeout prev_timestamp (key_func row) then
      mkSession key_func data ::
        sessionize_loop key_func inactivity_timeout rest [row] (some (key_func row))
    else
      sessionize_loop key_func inactivity_timeout rest (data ++ [row]) (some (key_func row))

/-- Embeds `time_based_sessionizer(events, inactivity_timeout, key_func)`.
`key_func` models `int(key_func(row))`: the accessor composed with the
integer coercion (a caller precondition per the spec). -/
def time_based_sessionizer {α : Type} (events : List α) (inactivity_timeout : Int)
    (key_func : α → Int) : List (Int × Int × List α) :=
  sessionize_loop key_func inactivity_timeout events [] none

/-- Two events sit next to each other inside one session yielded by the
sessionizer. -/
def inSameSession {α : Type} (sessions : List (Int × Int × List α)) (a b : α) : Prop :=
  ∃ s ∈ sessions, ∃ us vs, s.2.2 = us ++ a :: b :: vs

/-- The record key yielded by `map_json_record_reader`: the text key in
sequence-file mode, the byte offset in text-file mode. -/
abbrev ReaderKey := Str ⊕ Nat

/-- Loop of `map_json_record_reader`, with the `offset` accumulator made
explicit.  The generator checks `input_format` per line inside the loop;
an unrecognized format raises `RuntimeError` at the first line read, which
the `Except` models.  Since the format is fixed for the whole run, either
every line succeeds or the error fires at the very first line before any
record is produced, so collapsing the lazy generator into `Except` over
the whole list loses nothing.  `jloads` stands for the external
`json.loads` (assumed to succeed; decode failures are out of scope). -/
def map_json_record_reader_go {J : Type} (jloads : Str → J) (input_format : Str) :
    List Str → Nat → Except Str (List (ReaderKey × J))
  | [], _ => .ok []
  | line :: rest, offset =>
    if input_format = INPUT_FORMAT_SEQUENCE_FILE then
      match map_json_record_reader_go jloads input_format rest offset with
      | .ok out =>
        .ok ((Sum.inl (pyPartition KV_SEPARATOR (pyRstrip line)).1,
              jloads (pyPartition KV_SEPARATOR (pyRstrip line)).2) :: out)
      | .error e => .error e
    else if input_format = INPUT_FORMAT_TEXT_FILE then
      match map_json_record_reader_go jloads input_format rest (offset + line.length) with
      | .ok out => .ok ((Sum.inr offset, jloads (pyRstrip line)) :: out)
      | .error e => .error e
    else
      .error ("Unknown input_format ".toList ++ input_format)

/-- Embeds `map_json_record_reader(stream, input_format)`: the `offset`
accumulator starts at 0. -/
def map_json_record_reader {J : Type} (jloads : Str → J) (lines : List Str)
    (input_format : Str) : Except Str (List (ReaderKey × J)) :=
  map_json_record_reader_go jloads input_format lines 0

/-- The byte offsets text-file mode attaches to its records: the i-th
offset is the total length of all preceding lines (terminators
included). -/
def textOffsets (lines : List Str) : List Nat :=
  (List.range lines.length).map (fun i => (((lines.take i).map List.length)).sum)

/-- A Python value as fed to `emit`: a string, an integer, a boolean, or
a JSON-able container (`dict` with string keys, or `list`). -/
inductive PyVal where
  | pyStr (s : Str)
  | pyInt (n : Int)
  | pyBool (b : Bool)
  | pyDict (fields : List (Str × PyVal))
  | pyList (items : List PyVal)

/-- An opening brace character (written via its code point). -/
def lbrace : Char := Char.ofNat 123

/-- A closing brace character (written via its code point). -/
def rbrace : Char := Char.ofNat 125

/-- Lowercase hexadecimal digit, as used by `json.dumps` escapes. -/
def hexDigit (n : Nat) : Char :=
  if n < 10 then Char.ofNat (48 + n) else Char.ofNat (87 + n)

/-- Escape of the form `\uXXXX` for one code unit. -/
def uEscape4 (n : Nat) : Str :=
  ['\\', 'u', hexDigit (n / 4096 % 16), hexDigit (n / 256 % 16),
   hexDigit (n / 16 % 16), hexDigit (n % 16)]

/-- How `json.dumps` (default `ensure_ascii=True`) renders one character
inside a string literal: the named short escapes, `\uXXXX` for other
characters outside the printable ASCII range 0x20–0x7e (with surrogate
pairs above 0xFFFF), and the character itself otherwise. -/
def jsonEscapeChar (c : Char) : Str :=
  if c = '"' then ['\\', '"']
  else if c = '\\' then ['\\', '\\']
  else if c = '\n' then ['\\', 'n']
  else if c = '\t' then ['\\', 't']
  else if c = '\r' then ['\\', 'r']
  else if c = Char.ofNat 8 then ['\\', 'b']
  else if c = Char.ofNat 12 then ['\\', 'f']
  else if c.toNat < 32 || c.toNat > 126 then
    if c.toNat < 65536 then uEscape4 c.toNat
    else uEscape4 (55296 + (c.toNat - 65536) / 1024) ++
         uEscape4 (56320 + (c.toNat - 65536) % 1024)
  else [c]

/-- A JSON string literal: quoted, with each character escaped. -/
def jsonQuote (s : Str) : Str :=
  '"' :: (s.map jsonEscapeChar).flatten ++ ['"']

mutual

/-- Embeds `json.dumps(value, separators=(",", ":"))`: compact JSON text. -/
def jsonDumps : PyVal → Str
  | .pyStr s => jsonQuote s
  | .pyInt n => (toString n).toList
  | .pyBool b => if b then "true".toList else "false".toList
  | .pyList items => '[' :: jsonDumpsItems items ++ [']']
  | .pyDict fields => lbrace :: jsonDumpsFields fields ++ [rbrace]

/-- Comma-joined JSON renderings of array items. -/
def jsonDumpsItems : List PyVal → Str
  | [] => []
  | [v] => jsonDumps v
  | v :: w :: rest => jsonDumps v ++ ',' :: jsonDumpsItems (w :: rest)

/-- Comma-joined `"key":value` JSON renderings of object fields. -/
def jsonDumpsFields : List (Str × PyVal) → Str
  | [] => []
  | [(k, v)] => jsonQuote k ++ ':' :: jsonDumps v
  | (k, v) :: f :: rest => jsonQuote k ++ ':' :: jsonDumps v ++ ',' :: jsonDumpsFields (f :: rest)

end

/-- Python `str(value)` for the scalar values `emit` meets.  The
container cases stand for Python `repr`, which this development does not
model: `convert` routes containers to `jsonDumps` before ever calling
`str`, and the claims only apply `str` to scalar keys. -/
def pyStrOf : PyVal → Str
  | .pyStr s => s
  | .pyInt n => (toString n).toList
  | .pyBool b => if b then "True".toList else "False".toList
  | .pyDict _ => []
  | .pyList _ => []

/-- Python `s.upper()` (ASCII range; the values `emit` upcases are
`"True"`/`"False"`). -/
def pyUpper (s : Str) : Str :=
  s.map (fun c => if 'a' ≤ c && c ≤ 'z' then Char.ofNat (c.toNat - 32) else c)

/-- The `convert` closure inside `emit`: containers (`dict`/`list`) to
compact JSON, then booleans to `str(value).upper()`, everything else to
`str(value)`.  The `isinstance` chain checks containers first, so a
boolean is never JSON-rendered. -/
def convert (value : PyVal) : Str :=
  match value with
  | .pyDict _ => jsonDumps value
  | .pyList _ => jsonDumps value
  | .pyBool _ => pyUpper (pyStrOf value)
  | _ => pyStrOf value

/-- Value of `os.linesep` on POSIX platforms, where this MapReduce tooling runs. -/
def os_linesep : Str := ['\n']

/-- Embeds `emit(key, values, delimiter)`: the line written to the stream,
`str(key) + KV_SEPARATOR + delimiter.join(map(convert, values)) + os.linesep`. -/
def emit (key : PyVal) (values : List PyVal) (delimiter : Str) : Str :=
  pyStrOf key ++ KV_SEPARATOR :: List.intercalate delimiter (values.map convert) ++ os_linesep

/-- The value conversion as the spec words it (spec-side definition, for
comparison with `convert`): structured values to compact JSON text,
booleans to the literal uppercase tokens, everything else to its natural
string form. -/
def emitConvertSpec : PyVal → Str
  | .pyDict fields => jsonDumps (.pyDict fields)
  | .pyList items => jsonDumps (.pyList items)
  | .pyBool b => if b then "TRUE".toList else "FALSE".toList
  | v => pyStrOf v

/-!  Lemmas about `pyGroupBy` and the grouper. -/

lemma pyGroupBy_flatten_map {α β γ : Type} [DecidableEq β] (key : α → β) (f : α → γ) :
    ∀ xs : List α,
      ((pyGroupBy key xs).map (fun g => g.2.map f)).flatten = xs.map f := by
  intro xs
  induction xs with
  | nil => rfl
  | cons x xs ih =>
    rw [pyGroupBy]
    cases hg : pyGroupBy key xs with
    | nil =>
      rw [hg] at ih
      simp only [List.map_nil, List.flatten_nil] at ih
      simp [← ih]
    | cons p rest =>
      obtain ⟨k, g⟩ := p
      rw [hg] at ih
      dsimp only
      simp only [List.map_cons, List.flatten_cons] at ih
      by_cases he : key x = k
      · rw [if_pos he]
        simp only [List.map_cons, List.flatten_cons, ← ih]
        simp
      · rw [if_neg he]
        simp only [List.map_cons, List.flatten_cons, ← ih]
        simp

lemma pyGroupBy_tagged_map {α β γ : Type} [DecidableEq β] (key : α → β) (f : α → γ) :
    ∀ xs : List α,
      ((pyGroupBy key xs).map (fun g => g.2.map (fun r => (g.1, f r)))).flatten
        = xs.map (fun r => (key r, f r)) := by
  intro xs
  induction xs with
  | nil => rfl
  | cons x xs ih =>
    rw [pyGroupBy]
    cases hg : pyGroupBy key xs with
    | nil =>
      rw [hg] at ih
      simp only [List.map_nil, List.flatten_nil] at ih
      simp [← ih]
    | cons p rest =>
      obtain ⟨k, g⟩ := p
      rw [hg] at ih
      dsimp only
      simp only [List.map_cons, List.flatten_cons] at ih
      by_cases he : key x = k
      · rw [if_pos he]
        subst he
        simp only [List.map_cons, List.flatten_cons, ← ih]
        simp
      · rw [if_neg he]
        simp only [List.map_cons, List.flatten_cons, ← ih]
        simp

lemma pyGroupBy_chain {α β : Type} [DecidableEq β] (key : α → β) :
    ∀ xs : List α, List.Chain' (fun g1 g2 => g1.1 ≠ g2.1) (pyGroupBy key xs) := by
  intro xs
  induction xs with
  | nil => simp [pyGroupBy]
  | cons x xs ih =>
    rw [pyGroupBy]
    cases hg : pyGroupBy key xs with
    | nil => simp
    | cons p rest =>
      obtain ⟨k, g⟩ := p
      rw [hg] at ih
      dsimp only
      by_cases he : key x = k
      · rw [if_pos he]
        cases rest with
        | nil => simp
        | cons q rest' =>
          rw [List.chain'_cons] at ih ⊢
          exact ⟨ih.1, ih.2⟩
      · rw [if_neg he]
        rw [List.chain'_cons]
        exact ⟨he, ih⟩

lemma pyGroupBy_ne_nil {α β : Type} [DecidableEq β] (key : α → β) :
    ∀ xs : List α, ∀ g ∈ pyGroupBy key xs, g.2 ≠ [] := by
  intro xs
  induction xs with
  | nil => simp [pyGroupBy]
  | cons x xs ih =>
    rw [pyGroupBy]
    cases hg : pyGroupBy key xs with
    | nil => simp
    | cons p rest =>
      obtain ⟨k, g⟩ := p
      rw [hg] at ih
      dsimp only
      by_cases he : key x = k
      · rw [if_pos he]
        intro g' hg'
        rcases List.mem_cons.mp hg' with h1 | h2
        · subst h1; simp
        · exact ih g' (List.mem_cons_of_mem _ h2)
      · rw [if_neg he]
        intro g' hg'
        rcases List.mem_cons.mp hg' with h1 | h2
        · subst h1; simp
        · exact ih g' h2

lemma reduce_record_grouper_eq {β : Type} [DecidableEq β] (lines : List Str)
    (key_func : Str × Str → β) (delimiter : Option Char) :
    reduce_record_grouper lines key_func delimiter
      = (pyGroupBy key_func
          (lines.map (fun line => pyPartition KV_SEPARATOR (pyRstrip line)))).map
          (fun g => (g.1, g.2.map (fun kv => mkRow delimiter kv.2))) := by
  cases delimiter <;> rfl

lemma reduce_record_grouper_flatten {β : Type} [DecidableEq β] (lines : List Str)
    (key_func : Str × Str → β) (delimiter : Option Char) :
    ((reduce_record_grouper lines key_func delimiter).map (fun g => g.2)).flatten
      = lines.map (fun l => mkRow delimiter (pyPartition KV_SEPARATOR (pyRstrip l)).2) := by
  rw [reduce_record_grouper_eq]
  simp only [List.map_map, Function.comp_def]
  rw [pyGroupBy_flatten_map key_func (fun kv : Str × Str => mkRow delimiter kv.2)]
  simp [Function.comp_def]

lemma reduce_record_grouper_tagged {β : Type} [DecidableEq β] (lines : List Str)
    (key_func : Str × Str → β) (delimiter : Option Char) :
    ((reduce_record_grouper lines key_func delimiter).map
        (fun g => g.2.map (fun r => (g.1, r)))).flatten
      = lines.map (fun l =>
          (key_func (pyPartition KV_SEPARATOR (pyRstrip l)),
           mkRow delimiter (pyPartition KV_SEPARATOR (pyRstrip l)).2)) := by
  rw [reduce_record_grouper_eq]
  simp only [List.map_map, Function.comp_def, List.map_map]
  rw [pyGroupBy_tagged_map key_func (fun kv : Str × Str => mkRow delimiter kv.2)]
  simp [Function.comp_def]

lemma pyPartition_not_mem (sep : Char) :
    ∀ cs : Str, sep ∉ cs → pyPartition sep cs = (cs, []) := by
  intro cs
  induction cs with
  | nil => intro; rfl
  | cons c rest ih =>
    intro h
    rw [pyPartition, if_neg (fun he => h (by subst he; exact List.mem_cons_self _ _))]
    rw [ih (fun hm => h (List.mem_cons_of_mem _ hm))]

/-!  Lemmas about the sessionizer. -/

lemma mkSession_snd_snd {α : Type} (key_func : α → Int) (data : List α) :
    (mkSession key_func data).2.2 = data := rfl

lemma mkSession_endpoints {α : Type} (key_func : α → Int) (data : List α) (h : data ≠ []) :
    (mkSession key_func data).2.2.head?.map key_func = some (mkSession key_func data).1 ∧
    (mkSession key_func data).2.2.getLast?.map key_func = some (mkSession key_func data).2.1 := by
  cases data with
  | nil => exact absurd rfl h
  | cons x xs =>
    refine ⟨by simp [mkSession], ?_⟩
    cases hl : (x :: xs).getLast? with
    | none => simp at hl
    | some y => simp [mkSession, hl]

lemma sessionize_loop_flatten {α : Type} (key_func : α → Int) (t : Int) (rest : List α) :
    ∀ (data : List α) (prev : Option Int),
      ((sessionize_loop key_func t rest data prev).map (fun s => s.2.2)).flatten
        = data ++ rest := by
  induction rest with
  | nil =>
    intro data prev
    by_cases h : data.isEmpty
    · simp [sessionize_loop, h, List.isEmpty_iff.mp h]
    · simp [sessionize_loop, h, mkSession]
  | cons row rest ih =>
    intro data prev
    rw [sessionize_loop]
    by_cases hb : sessionSplit t prev (key_func row) = true
    · rw [if_pos hb]
      simp only [List.map_cons, List.flatten_cons, mkSession_snd_snd,
        ih [row] (some (key_func row))]
      simp
    · rw [if_neg hb, ih (data ++ [row]) (some (key_func row))]
      simp

lemma sessionize_loop_endpoints {α : Type} (key_func : α → Int) (t : Int) (rest : List α) :
    ∀ (data : List α) (prev : Option Int), (prev.isSome = true → data ≠ []) →
      ∀ s ∈ sessionize_loop key_func t rest data prev,
        s.2.2.head?.map key_func = some s.1 ∧ s.2.2.getLast?.map key_func = some s.2.1 := by
  induction rest with
  | nil =>
    intro data prev hinv s hs
    rw [sessionize_loop] at hs
    by_cases h : data.isEmpty
    · rw [if_pos h] at hs
      simp at hs
    · rw [if_neg h] at hs
      rw [List.mem_singleton] at hs
      subst hs
      exact mkSession_endpoints key_func data (by simpa using h)
  | cons row rest ih =>
    intro data prev hinv s hs
    rw [sessionize_loop] at hs
    by_cases hb : sessionSplit t prev (key_func row) = true
    · rw [if_pos hb] at hs
      rcases List.mem_cons.mp hs with h1 | h2
      · subst h1
        apply mkSession_endpoints
        cases prev with
        | none => simp [sessionSplit] at hb
        | some p => exact hinv rfl
      · exact ih [row] (some (key_func row)) (fun _ => by simp) s h2
    · rw [if_neg hb] at hs
      exact ih (data ++ [row]) (some (key_func row)) (fun _ => by simp) s hs

lemma inSameSession_cons {α : Type} {sessions : List (Int × Int × List α)}
    {s : Int × Int × List α} {a b : α} (h : inSameSession sessions a b) :
    inSameSession (s :: sessions) a b := by
  obtain ⟨s', hs', w⟩ := h
  exact ⟨s', List.mem_cons_of_mem _ hs', w⟩

lemma sessionize_loop_pair {α : Type} (key_func : α → Int) (t : Int) (a b : α)
    (rest : List α) :
    ∀ (data : List α) (prev : Option Int) (us vs : List α), data = us ++ a :: b :: vs →
      inSameSession (sessionize_loop key_func t rest data prev) a b := by
  induction rest with
  | nil =>
    intro data prev us vs hdata
    subst hdata
    rw [sessionize_loop, if_neg (by simp)]
    exact ⟨mkSession key_func (us ++ a :: b :: vs), List.mem_singleton_self _, us, vs, rfl⟩
  | cons row rest ih =>
    intro data prev us vs hdata
    rw [sessionize_loop]
    by_cases hb : sessionSplit t prev (key_func row) = true
    · rw [if_pos hb]
      exact ⟨mkSession key_func data, List.mem_cons_self _ _, us, vs, hdata⟩
    · rw [if_neg hb]
      exact ih (data ++ [row]) (some (key_func row)) us (vs ++ [row])
        (by subst hdata; simp)

lemma sessionize_loop_adjacent {α : Type} (key_func : α → Int) (t : Int) (a b : α)
    (hgap : ¬(key_func a ≠ 0 ∧ key_func b - key_func a > t)) (ys : List α) :
    ∀ (xs data : List α) (prev : Option Int),
      inSameSession (sessionize_loop key_func t (xs ++ a :: b :: ys) data prev) a b := by
  have hsplit : sessionSplit t (some (key_func a)) (key_func b) = false := by
    by_cases h0 : key_func a = 0
    · simp [sessionSplit, h0]
    · have hng : ¬(key_func b - key_func a > t) := fun hg => hgap ⟨h0, hg⟩
      simp [sessionSplit, h0, hng]
  intro xs
  induction xs with
  | nil =>
    intro data prev
    rw [List.nil_append, sessionize_loop]
    by_cases hb : sessionSplit t prev (key_func a) = true
    · rw [if_pos hb]
      apply inSameSession_cons
      rw [sessionize_loop, if_neg (by simp [hsplit])]
      exact sessionize_loop_pair key_func t a b ys ([a] ++ [b]) (some (key_func b)) [] [] rfl
    · rw [if_neg hb]
      rw [sessionize_loop, if_neg (by simp [hsplit])]
      exact sessionize_loop_pair key_func t a b ys ((data ++ [a]) ++ [b])
        (some (key_func b)) data [] (by simp)
  | cons x xs ih =>
    intro data prev
    rw [List.cons_append, sessionize_loop]
    by_cases hb : sessionSplit t prev (key_func x) = true
    · rw [if_pos hb]
      exact inSameSession_cons (ih [x] (some (key_func x)))
    · rw [if_neg hb]
      exact ih (data ++ [x]) (some (key_func x))

/-- C1: the claim says adjacent events are split into different sessions
whenever the gap strictly exceeds the threshold, for all integer
timestamps including a first event at timestamp 0.  The code tests
`prev_timestamp` for truthiness instead of for presence, so a previous
timestamp of exactly 0 disables the split: events at timestamps 0 and
100 with threshold 5 land in ONE session `(0, 100, [both])` even though
the gap 100 is greater than 5.  This theorem evaluates the embedded code
at that failing input. -/
theorem c1_zero_timestamp_disables_split :
    time_based_sessionizer ([0, 100] : List Int) 5 (fun x => x)
      = [(0, 100, [0, 100])] := by
  decide

/-- C2: two adjacent events whose timestamp gap is exactly the threshold
are never split into different sessions; they end up next to each other
inside a single yielded session. -/
theorem c2_gap_equal_threshold_same_session {α : Type} (events : List α) (t : Int)
    (key_func : α → Int) (xs ys : List α) (a b : α)
    (hev : events = xs ++ a :: b :: ys) (hgap : key_func b - key_func a = t) :
    inSameSession (time_based_sessionizer events t key_func) a b := by
  subst hev
  exact sessionize_loop_adjacent key_func t a b
    (fun h => absurd hgap (by
      intro he
      rw [he] at h
      exact lt_irrefl t h.2)) ys xs [] none

/-- Witness for C2: timestamps `[1, 6]`, threshold `5` — both events in
one session (which is `(1, 6, [1, 6])`). -/
theorem c2_witness :
    (([1, 6] : List Int) = [] ++ 1 :: 6 :: [] ∧ (fun x : Int => x) 6 - (fun x : Int => x) 1 = 5) ∧
    inSameSession (time_based_sessionizer ([1, 6] : List Int) 5 (fun x => x)) 1 6 :=
  ⟨⟨rfl, by decide⟩,
   c2_gap_equal_threshold_same_session [1, 6] 5 (fun x => x) [] [] 1 6 rfl (by decide)⟩

/-- C4: every yielded session's start is the timestamp of its first
event and its end the timestamp of its last event, and concatenating the
sessions' event lists in emission order reproduces the input exactly. -/
theorem c4_session_endpoints_and_partition {α : Type} (events : List α) (t : Int)
    (key_func : α → Int) :
    (∀ s ∈ time_based_sessionizer events t key_func,
        s.2.2.head?.map key_func = some s.1 ∧ s.2.2.getLast?.map key_func = some s.2.1) ∧
    ((time_based_sessionizer events t key_func).map (fun s => s.2.2)).flatten = events := by
  constructor
  · exact fun s hs =>
      sessionize_loop_endpoints key_func t events [] none (by simp) s hs
  · simpa using sessionize_loop_flatten key_func t events [] none

/-- Witness for C4: the session `(1, 2, [1, 2])` of the spec's example
input `[1, 2, 10, 16]` with threshold 5 has the claimed endpoints. -/
theorem c4_witness :
    (((1 : Int), (2 : Int), ([1, 2] : List Int)) ∈
        time_based_sessionizer ([1, 2, 10, 16] : List Int) 5 (fun x => x)) ∧
    (([1, 2] : List Int).head?.map (fun x => x) = some 1 ∧
     ([1, 2] : List Int).getLast?.map (fun x => x) = some 2) :=
  ⟨by decide,
   (c4_session_endpoints_and_partition ([1, 2, 10, 16] : List Int) 5 (fun x => x)).1
     (1, 2, [1, 2]) (by decide)⟩

/-- C3: the grouper yields one group per maximal run of equal keys, in
stream order: tagging every row with its group's key and concatenating
the groups in emission order reproduces the input lines, each line
carrying its own key and its parsed row (so row order is reproduced
exactly and every row sits in the group of its own key); groups are
non-empty and adjacent groups carry different keys (maximal runs).  The
spec's four-line example evaluates to exactly the two groups it lists. -/
theorem c3_grouper_partition_law :
    (∀ (β : Type) [DecidableEq β] (lines : List Str) (key_func : Str × Str → β)
        (delimiter : Option Char),
      ((reduce_record_grouper lines key_func delimiter).map
          (fun g => g.2.map (fun r => (g.1, r)))).flatten
        = lines.map (fun l =>
            (key_func (pyPartition KV_SEPARATOR (pyRstrip l)),
             mkRow delimiter (pyPartition KV_SEPARATOR (pyRstrip l)).2)) ∧
      List.Chain' (fun g1 g2 => g1.1 ≠ g2.1)
        (reduce_record_grouper lines key_func delimiter) ∧
      ∀ g ∈ reduce_record_grouper lines key_func delimiter, g.2 ≠ []) ∧
    reduce_record_grouper
        ["100\tA,B,C,D\n".toList, "100\tE,F,G,H\n".toList,
         "200\t1,2,3,4\n".toList, "200\t5,6,7,8\n".toList]
        Prod.fst (some ',')
      = [("100".toList,
          [Row.fields ["A".toList, "B".toList, "C".toList, "D".toList],
           Row.fields ["E".toList, "F".toList, "G".toList, "H".toList]]),
         ("200".toList,
          [Row.fields ["1".toList, "2".toList, "3".toList, "4".toList],
           Row.fields ["5".toList, "6".toList, "7".toList, "8".toList]])] := by
  constructor
  · intro β inst lines key_func delimiter
    refine ⟨reduce_record_grouper_tagged lines key_func delimiter, ?_, ?_⟩
    · rw [reduce_record_grouper_eq, List.chain'_map]
      exact pyGroupBy_chain key_func _
    · intro g hg
      rw [reduce_record_grouper_eq] at hg
      rcases List.mem_map.mp hg with ⟨g', hg', rfl⟩
      simp only [ne_eq, List.map_eq_nil_iff]
      exact pyGroupBy_ne_nil key_func _ g' hg'
  · decide

/-- Witness discharging C3's membership hypothesis: the first group of
the spec's example input is non-empty. -/
theorem c3_witness :
    (("100".toList,
      [Row.fields ["A".toList, "B".toList, "C".toList, "D".toList],
       Row.fields ["E".toList, "F".toList, "G".toList, "H".toList]]) ∈
      reduce_record_grouper
        ["100\tA,B,C,D\n".toList, "100\tE,F,G,H\n".toList,
         "200\t1,2,3,4\n".toList, "200\t5,6,7,8\n".toList]
        Prod.fst (some ',')) ∧
    ([Row.fields ["A".toList, "B".toList, "C".toList, "D".toList],
      Row.fields ["E".toList, "F".toList, "G".toList, "H".toList]] : List Row) ≠ [] :=
  ⟨by decide,
   (c3_grouper_partition_law.1 Str
       ["100\tA,B,C,D\n".toList, "100\tE,F,G,H\n".toList,
        "200\t1,2,3,4\n".toList, "200\t5,6,7,8\n".toList]
       Prod.fst (some ',')).2.2
     ("100".toList,
      [Row.fields ["A".toList, "B".toList, "C".toList, "D".toList],
       Row.fields ["E".toList, "F".toList, "G".toList, "H".toList]])
     (by decide)⟩

/-- C7: a line without the separator is not an error — it parses to
(key = the whole stripped line, empty payload), its row is included in a
group like any other, and the surrounding lines are processed
normally. -/
theorem c7_missing_separator_empty_payload
    (line : Str) (hno : KV_SEPARATOR ∉ pyRstrip line) :
    pyPartition KV_SEPARATOR (pyRstrip line) = (pyRstrip line, []) ∧
    ∀ (β : Type) [DecidableEq β] (xs ys : List Str) (key_func : Str × Str → β)
      (delimiter : Option Char),
      ((reduce_record_grouper (xs ++ line :: ys) key_func delimiter).map
          (fun g => g.2)).flatten
        = xs.map (fun l => mkRow delimiter (pyPartition KV_SEPARATOR (pyRstrip l)).2)
          ++ mkRow delimiter []
          :: ys.map (fun l => mkRow delimiter (pyPartition KV_SEPARATOR (pyRstrip l)).2) := by
  have hpart := pyPartition_not_mem KV_SEPARATOR (pyRstrip line) hno
  refine ⟨hpart, ?_⟩
  intro β inst xs ys key_func delimiter
  rw [reduce_record_grouper_flatten, List.map_append, List.map_cons, hpart]

/-- Witness for C7: a separator-free line between two normal lines
contributes the empty-payload row `Row.fields [to]` and grouping
continues. -/
theorem c7_witness :
    (KV_SEPARATOR ∉ pyRstrip "NOSEP \n".toList) ∧
    ((reduce_record_grouper
          ["a\tb\n".toList, "NOSEP \n".toList, "c\td\n".toList]
          Prod.fst (some ',')).map (fun g => g.2)).flatten
      = ["a\tb\n".toList].map
          (fun l => mkRow (some ',') (pyPartition KV_SEPARATOR (pyRstrip l)).2)
        ++ mkRow (some ',') []
        :: ["c\td\n".toList].map
            (fun l => mkRow (some ',') (pyPartition KV_SEPARATOR (pyRstrip l)).2) :=
  ⟨by decide,
   (c7_missing_separator_empty_payload "NOSEP \n".toList (by decide)).2 Str
     ["a\tb\n".toList] ["c\td\n".toList] Prod.fst (some ',')⟩

/-!  Lemmas about the record reader. -/

lemma map_json_record_reader_go_seq {J : Type} (jloads : Str → J) (lines : List Str) :
    ∀ offset : Nat,
      map_json_record_reader_go jloads INPUT_FORMAT_SEQUENCE_FILE lines offset
        = .ok (lines.map (fun l =>
            (Sum.inl (pyPartition KV_SEPARATOR (pyRstrip l)).1,
             jloads (pyPartition KV_SEPARATOR (pyRstrip l)).2))) := by
  induction lines with
  | nil => intro offset; rfl
  | cons line rest ih =>
    intro offset
    rw [map_json_record_reader_go, if_pos rfl, ih offset]
    rfl

lemma map_json_record_reader_go_text {J : Type} (jloads : Str → J) (lines : List Str) :
    ∀ offset : Nat,
      map_json_record_reader_go jloads INPUT_FORMAT_TEXT_FILE lines offset
        = .ok (List.zipWith (fun off l => (Sum.inr off, jloads (pyRstrip l)))
            ((List.range lines.length).map
              (fun i => offset + (((lines.take i).map List.length)).sum))
            lines) := by
  induction lines with
  | nil => intro offset; rfl
  | cons line rest ih =>
    intro offset
    rw [map_json_record_reader_go, if_neg (by decide), if_pos rfl,
      ih (offset + line.length)]
    have hoff : (List.range (rest.length + 1)).map
        (fun i => offset + (((line :: rest).take i).map List.length).sum)
        = offset :: (List.range rest.length).map
            (fun i => (offset + line.length) + ((rest.take i).map List.length).sum) := by
      rw [List.range_succ_eq_map]
      simp only [List.map_cons, List.take_zero, List.map_nil, List.sum_nil,
        Nat.add_zero, List.map_map]
      congr 1
      apply List.map_congr_left
      intro i _
      simp only [Function.comp_apply, List.take_succ_cons, List.map_cons, List.sum_cons]
      omega
    simp only [List.length_cons]
    rw [hoff]
    rfl

lemma map_json_record_reader_seq_eq {J : Type} (jloads : Str → J) (lines : List Str) :
    map_json_record_reader jloads lines INPUT_FORMAT_SEQUENCE_FILE
      = .ok (lines.map (fun l =>
          (Sum.inl (pyPartition KV_SEPARATOR (pyRstrip l)).1,
           jloads (pyPartition KV_SEPARATOR (pyRstrip l)).2))) :=
  map_json_record_reader_go_seq jloads lines 0

lemma map_json_record_reader_text_eq {J : Type} (jloads : Str → J) (lines : List Str) :
    map_json_record_reader jloads lines INPUT_FORMAT_TEXT_FILE
      = .ok (List.zipWith (fun off l => (Sum.inr off, jloads (pyRstrip l)))
          (textOffsets lines) lines) := by
  rw [map_json_record_reader, map_json_record_reader_go_text jloads lines 0]
  simp [textOffsets]

/-- C6: in sequence-file mode the reader yields, per line
`KEY<TAB>JSON_PAYLOAD`, the pair (key text, decoded payload); in
text-file mode it yields (byte offset, decoded stripped line) where the
i-th record's offset is the total length, terminators included, of all
preceding lines (so the first is 0).  The two concrete conjuncts
instantiate the decoder with the identity to exhibit the spec's example
lines. -/
theorem c6_reader_modes :
    (∀ (J : Type) (jloads : Str → J) (lines : List Str),
      map_json_record_reader jloads lines INPUT_FORMAT_SEQUENCE_FILE
        = .ok (lines.map (fun l =>
            (Sum.inl (pyPartition KV_SEPARATOR (pyRstrip l)).1,
             jloads (pyPartition KV_SEPARATOR (pyRstrip l)).2))) ∧
      map_json_record_reader jloads lines INPUT_FORMAT_TEXT_FILE
        = .ok (List.zipWith (fun off l => (Sum.inr off, jloads (pyRstrip l)))
            (textOffsets lines) lines)) ∧
    map_json_record_reader (fun s : Str => s) ["1\t\x7b\"A\":\"B\"\x7d\n".toList]
        INPUT_FORMAT_SEQUENCE_FILE
      = .ok [(Sum.inl "1".toList, "\x7b\"A\":\"B\"\x7d".toList)] ∧
    map_json_record_reader (fun s : Str => s)
        ["\x7b\"E\":\"F\"\x7d\n".toList, "\x7b\"G\":\"H\"\x7d\n".toList]
        INPUT_FORMAT_TEXT_FILE
      = .ok [(Sum.inr 0, "\x7b\"E\":\"F\"\x7d".toList),
             (Sum.inr 10, "\x7b\"G\":\"H\"\x7d".toList)] :=
  ⟨fun J jloads lines =>
    ⟨map_json_record_reader_seq_eq jloads lines,
     map_json_record_reader_text_eq jloads lines⟩,
   by rfl, by rfl⟩

/-- Counterexample to C8 as stated: with an unrecognized input format
and an EMPTY input stream, the reader raises nothing at all — it
terminates with zero records, because the format check sits inside the
per-line loop and the loop body never runs. -/
theorem c8_empty_stream_no_error :
    map_json_record_reader (fun s : Str => s) ([] : List Str) "BOGUS".toList
      = .ok [] := rfl

/-- C8 (amended): for every input format other than `SEQUENCE_FILE` or
`TEXT_FILE`, the reader fails on consuming the FIRST line of any
non-empty stream, before yielding any record; on an empty stream it
yields no records and raises no error. -/
theorem c8_unknown_format_error_on_first_line {J : Type} (jloads : Str → J)
    (input_format : Str) (h1 : input_format ≠ INPUT_FORMAT_SEQUENCE_FILE)
    (h2 : input_format ≠ INPUT_FORMAT_TEXT_FILE) (line : Str) (rest : List Str) :
    map_json_record_reader jloads (line :: rest) input_format
      = .error ("Unknown input_format ".toList ++ input_format) ∧
    map_json_record_reader jloads ([] : List Str) input_format = .ok [] := by
  constructor
  · rw [map_json_record_reader, map_json_record_reader_go, if_neg h1, if_neg h2]
  · rfl

/-- Witness for C8 (amended): the format `"BOGUS"` errors on the first
line of a one-line stream and accepts the empty stream. -/
theorem c8_witness :
    (("BOGUS".toList : Str) ≠ INPUT_FORMAT_SEQUENCE_FILE ∧
     ("BOGUS".toList : Str) ≠ INPUT_FORMAT_TEXT_FILE) ∧
    (map_json_record_reader (fun s : Str => s) ["x".toList] "BOGUS".toList
        = .error ("Unknown input_format ".toList ++ "BOGUS".toList) ∧
     map_json_record_reader (fun s : Str => s) ([] : List Str) "BOGUS".toList
        = .ok []) :=
  ⟨⟨by decide, by decide⟩,
   c8_unknown_format_error_on_first_line (fun s : Str => s) "BOGUS".toList
     (by decide) (by decide) "x".toList []⟩

/-- C10: both consumers strip ALL trailing whitespace (spaces and tabs
as well as the terminator) from each line before splitting or decoding:
appending trailing whitespace to a line changes neither its stripped
form, nor its key/payload split, nor the grouper's output, nor the
sequence-mode reader's output — so a payload's trailing whitespace is
not preserved. -/
theorem c10_rstrip_before_split (line ws : Str) (hws : ∀ c ∈ ws, pyIsSpace c = true) :
    pyRstrip (line ++ ws) = pyRstrip line ∧
    pyPartition KV_SEPARATOR (pyRstrip (line ++ ws))
      = pyPartition KV_SEPARATOR (pyRstrip line) ∧
    (∀ (β : Type) [DecidableEq β] (rest : List Str) (key_func : Str × Str → β)
       (delimiter : Option Char),
       reduce_record_grouper ((line ++ ws) :: rest) key_func delimiter
         = reduce_record_grouper (line :: rest) key_func delimiter) ∧
    (∀ (J : Type) (jloads : Str → J) (rest : List Str),
       map_json_record_reader jloads ((line ++ ws) :: rest) INPUT_FORMAT_SEQUENCE_FILE
         = map_json_record_reader jloads (line :: rest) INPUT_FORMAT_SEQUENCE_FILE) := by
  have h1 : pyRstrip (line ++ ws) = pyRstrip line := by
    unfold pyRstrip
    rw [List.reverse_append,
      List.dropWhile_append_of_pos (fun a ha => hws a (List.mem_reverse.mp ha))]
  refine ⟨h1, by rw [h1], ?_, ?_⟩
  · intro β inst rest key_func delimiter
    rw [reduce_record_grouper_eq, reduce_record_grouper_eq,
      List.map_cons, List.map_cons, h1]
  · intro J jloads rest
    rw [map_json_record_reader_seq_eq, map_json_record_reader_seq_eq,
      List.map_cons, List.map_cons, h1]

/-- Witness for C10: trailing `" \t "` disappears from the line
`"k\tv"` before the key/payload split. -/
theorem c10_witness :
    (∀ c ∈ (" \t ".toList : Str), pyIsSpace c = true) ∧
    pyRstrip ("k\tv".toList ++ " \t ".toList) = pyRstrip "k\tv".toList :=
  ⟨by decide, (c10_rstrip_before_split "k\tv".toList " \t ".toList (by decide)).1⟩

/-!  The serializer. -/

lemma convert_eq_spec : ∀ v : PyVal, convert v = emitConvertSpec v := by
  intro v
  cases v with
  | pyStr s => rfl
  | pyInt n => rfl
  | pyBool b => cases b <;> rfl
  | pyDict fields => rfl
  | pyList items => rfl

/-- C5: `emit` writes exactly one line
`KEY<TAB>VAL1<DELIM>VAL2<DELIM>...` where each value is converted as the
spec words it (containers to compact JSON, booleans to `TRUE`/`FALSE`,
anything else to its natural string form), and the two concrete example
lines come out verbatim. -/
theorem c5_emit_line_format :
    (∀ (key : PyVal) (values : List PyVal) (delimiter : Str),
      emit key values delimiter
        = pyStrOf key ++ KV_SEPARATOR
            :: List.intercalate delimiter (values.map emitConvertSpec) ++ os_linesep) ∧
    emit (.pyStr "dict".toList) [.pyDict [("key".toList, .pyStr "value".toList)]] ['\t']
      = "dict\t\x7b\"key\":\"value\"\x7d\n".toList ∧
    emit (.pyStr "boolean".toList) [.pyBool true, .pyBool false] ['\t']
      = "boolean\tTRUE\tFALSE\n".toList := by
  refine ⟨?_, by rfl, by rfl⟩
  intro key values delimiter
  have hmap : values.map convert = values.map emitConvertSpec :=
    List.map_congr_left (fun v _ => convert_eq_spec v)
  rw [emit, hmap]

/-- C9: empty input yields an empty output sequence for both core
components — no trailing empty group or session. -/
theorem c9_empty_input_empty_output {α β : Type} [DecidableEq β]
    (key_func : Str × Str → β) (delimiter : Option Char) (t : Int)
    (key_funcE : α → Int) :
    reduce_record_grouper [] key_func delimiter = [] ∧
    time_based_sessionizer ([] : List α) t key_funcE = [] :=
  ⟨rfl, rfl⟩

end Mrutil
